import Mathlib

/-!
Verification development for the Pasted-Attachment-Replacer repository.

The program (src/Functions.py, `update_jama_attachments`) resolves a list of
user-requested global identifiers against a paginated project listing, and for
each resolved item scrapes an attachment reference out of the rich-text
description, downloads the attachment, renames it with a sequence counter,
re-uploads it, substitutes the reference in the HTML, and patches the item,
recording one status row per processed item.

This file gives a shallow embedding: the pure string manipulations
(`re.search`, `re.findall`, `str.replace`, `os.path.basename`,
`os.path.splitext`, `str.lstrip`, `str.rstrip`, zero-padded formatting) are
translated to executable Lean functions over `List Char`; the effectful
operations (HTTP requests through the `requests` session, file writes and
removals, the excel read, the BeautifulSoup scrape) are modelled by an
explicit environment record `Env` of response functions, and the pipeline
is a pure function of the environment that also emits the trace of the
effect requests it issues.
-/

/-- Index of the last occurrence of `c` in `s` (Python `str.rfind`,
returning `none` instead of -1). -/
def lastIdxOf (c : Char) : List Char → Option Nat
  | [] => none
  | x :: xs =>
    match lastIdxOf c xs with
    | some i => some (i + 1)
    | none => if x = c then some 0 else none

/-- Translation of `os.path.basename` for posix paths: everything after the last slash. -/
def basename (p : List Char) : List Char :=
  match lastIdxOf '/' p with
  | none => p
  | some s => p.drop (s + 1)

/-- Translation of `os.path.splitext` (posix `genericpath._splitext`): split at the last dot,
unless every character between the last slash and that dot is itself a dot
(so that dotfiles such as `.bashrc` keep an empty extension). -/
def splitext (p : List Char) : List Char × List Char :=
  match lastIdxOf '.' p with
  | none => (p, [])
  | some d =>
    match lastIdxOf '/' p with
    | some s =>
      if d ≤ s then (p, [])
      else if ((p.drop (s + 1)).take (d - (s + 1))).any (fun c => c ≠ '.') then
        (p.take d, p.drop d)
      else (p, [])
    | none =>
      if (p.take d).any (fun c => c ≠ '.') then (p.take d, p.drop d)
      else (p, [])

/-- Translation of `str.lstrip` restricted to one strip character. -/
def lstripChar (c : Char) (s : List Char) : List Char :=
  s.dropWhile (fun x => x == c)

/-- Translation of `str.rstrip` restricted to one strip character. -/
def rstripChar (c : Char) (s : List Char) : List Char :=
  (s.reverse.dropWhile (fun x => x == c)).reverse

/-- Python format spec `03d`: decimal rendering left-padded with zeros to a
minimum width of three characters. -/
def fmt03 (n : Nat) : String :=
  let s := toString n
  if s.length < 3 then String.mk (List.replicate (3 - s.length) '0') ++ s else s

/-- The pattern `pat` matches in `s` at position `i` (the next
`pat.length` characters of `s` starting at `i` are exactly `pat`). -/
def matchesAt (pat s : List Char) (i : Nat) : Prop :=
  (s.drop i).take pat.length = pat

instance (pat s : List Char) (i : Nat) : Decidable (matchesAt pat s i) :=
  inferInstanceAs (Decidable ((s.drop i).take pat.length = pat))

/-- Left-to-right scan of Python `str.replace`, structurally recursive on a
fuel argument so that the kernel can evaluate it; each step either rewrites a
match of `pat` (consuming `pat.length` characters) or copies one character.
A run that starts with `fuel = s.length` never exhausts the fuel. -/
def replaceAllAux (pat rep : List Char) : Nat → List Char → List Char
  | _, [] => if pat = [] then rep else []
  | 0, c :: cs => c :: cs
  | fuel + 1, c :: cs =>
    if pat ≠ [] ∧ matchesAt pat (c :: cs) 0 then
      rep ++ replaceAllAux pat rep fuel ((c :: cs).drop pat.length)
    else if pat = [] then
      rep ++ c :: replaceAllAux pat rep fuel cs
    else
      c :: replaceAllAux pat rep fuel cs

/-- Python `str.replace`: replace every non-overlapping occurrence of `pat`
in `s` by `rep`, scanning left to right (for the empty pattern Python
interleaves `rep` around every character, which the scan mirrors; the
program only ever calls this with a nonempty pattern). -/
def replaceAll (pat rep s : List Char) : List Char :=
  replaceAllAux pat rep s.length s

/-- Python `str.replace` lifted to `String` (line 191 of src/Functions.py:
`rich_text_html.replace(image_download_url, new_attachment_url)`). -/
def replaceAllStr (pat rep s : String) : String :=
  String.mk (replaceAll pat.data rep.data s.data)

/-- The characters of the literal regex part of `attachment/(\d+)`
(line 107 of src/Functions.py). -/
def attachPat : List Char := "attachment/".data

/-- Translation of the search for `attachment/(\d+)` followed by `group(1)`: find the
leftmost position where the literal `attachment/` is followed by at least one
digit and return the maximal digit run after it. -/
def extractIdFrom : List Char → Option (List Char)
  | [] => none
  | c :: cs =>
    if (c :: cs).take attachPat.length = attachPat ∧
        ((c :: cs).drop attachPat.length).takeWhile Char.isDigit ≠ [] then
      some (((c :: cs).drop attachPat.length).takeWhile Char.isDigit)
    else
      extractIdFrom cs

/-- Attachment-id extraction on `String`s. -/
def extractAttachmentId (src : String) : Option String :=
  (extractIdFrom src.data).map String.mk

/-- The characters of the literal part of the filename regex
`filename="([^"]+)"` (line 125 of src/Functions.py). -/
def fnPat : List Char := "filename=\"".data

/-- First match of `re.findall(r'filename="([^"]+)"', header)`: leftmost
position where `filename="` is followed by a nonempty run of non-quote
characters terminated by a closing quote; return that run. -/
def extractFilename : List Char → Option (List Char)
  | c :: cs =>
    if (c :: cs).take fnPat.length = fnPat then
      let rest := ((c :: cs).drop fnPat.length)
      let cap := rest.takeWhile (fun x => x ≠ '"')
      if cap ≠ [] ∧ rest.drop cap.length ≠ [] then some cap
      else extractFilename cs
    else extractFilename cs
  | [] => none

/-- Python-dict insertion on an association list: assigning an existing key
updates its value in place (keeping its position), a new key is appended. -/
def dinsert {K V : Type} [DecidableEq K] (k : K) (v : V) : List (K × V) → List (K × V)
  | [] => [(k, v)]
  | (k2, v2) :: rest => if k2 = k then (k, v) :: rest else (k2, v2) :: dinsert k v rest

/-- Python-dict lookup on an association list. -/
def dlookup {K V : Type} [DecidableEq K] (k : K) : List (K × V) → Option V
  | [] => none
  | (k2, v2) :: rest => if k2 = k then some v2 else dlookup k rest

/-! ## Data model and effect environment -/

/-- One row of the paginated project listing: the internal numeric id
(`item['id']`) and the user-facing global identifier
(`item['fields']['globalId']`). -/
structure ListItem where
  id : Nat
  globalId : String
  deriving DecidableEq

/-- A Python exception as visible to the error handlers of
`update_jama_attachments`: an `requests.exceptions.HTTPError` carrying an
HTTP status code, or any other exception. -/
inductive PyErr : Type where
  | http (status : Nat)
  | other (msg : String)
  deriving DecidableEq

/-- A successful streamed file-download response: the
`Content-Disposition` header value and the body bytes. -/
structure DownloadResp where
  contentDisposition : String
  content : List Nat
  deriving DecidableEq

/-- One row of `processed_items`: global id, browser-facing item URL, and the
status string (the code appends the literal strings `Updated` or
`Skipped`). -/
structure Record where
  id : String
  url : String
  status : String
  deriving DecidableEq

/-- The trace of effect requests the pipeline issues while processing items:
HTTP requests through the session, staged-file writes and removals. -/
inductive Event : Type where
  | getItem (apiId : Nat)
  | apiFileDownload (attachmentId : String)
  | directFileDownload (url : String)
  | writeFile (path : String) (content : List Nat)
  | createAtt (name : String)
  | uploadAtt (newId : Nat) (content : List Nat)
  | putItem (apiId : Nat) (html : String)
  | removeFile (path : String)
  deriving DecidableEq

/-- The external world as `update_jama_attachments` observes it: a response
for every request it can issue.  `listingPage` and `readExcel` model the
fatal-tier inputs (their failure aborts the whole run and is not in scope of
the per-item claims); the remaining fields are the per-item fallible calls.
`soupFindImgSrc` models the BeautifulSoup scrape of lines 97-99
(`none` = no `img` tag, `some none` = an `img` tag without a `src`
attribute, `some (some s)` = first `img` tag has `src` value `s`). -/
structure Env where
  listingPage : Nat → List ListItem
  readExcel : String → List String
  fetchDescription : Nat → Except PyErr String
  soupFindImgSrc : String → Option (Option String)
  apiDownload : String → Except PyErr DownloadResp
  directDownload : String → Except PyErr DownloadResp
  createAttachment : String → Except PyErr Nat
  uploadContent : Nat → List Nat → Except PyErr Unit
  putItem : Nat → String → Except PyErr Unit

/-! ## The pipeline (translation of `update_jama_attachments`) -/

/-- The browser-facing URL recorded for every processed item
(lines 93, 101, 110, 201, 206, 209 of src/Functions.py). -/
def recordUrl (cleanUrl : String) (projectId apiId : Nat) : String :=
  cleanUrl ++ "/perspective.req#/items/" ++ toString apiId ++ "?projectId=" ++ toString projectId

/-- The Skipped row appended by every per-item failure branch. -/
def skipRec (cleanUrl : String) (projectId apiId : Nat) (globalId : String) : Record :=
  ⟨globalId, recordUrl cleanUrl projectId apiId, "Skipped"⟩

/-- The Updated row appended on full success (line 201). -/
def updRec (cleanUrl : String) (projectId apiId : Nat) (globalId : String) : Record :=
  ⟨globalId, recordUrl cleanUrl projectId apiId, "Updated"⟩

/-- The filename under which the primary-endpoint download is staged
(lines 124-131): the first `filename="..."` capture of the
Content-Disposition header if any, else the basename of the image URL. -/
def stagedFilename (resp : DownloadResp) (src : String) : String :=
  match extractFilename resp.contentDisposition.data with
  | some f => String.mk f
  | none => String.mk (basename src.data)

/-- The renamed filename (lines 156-157): stem, underscore, zero-padded
counter, extension. -/
def newFilenameOf (filename : String) (enumeration : Nat) : String :=
  String.mk (splitext filename.data).1 ++ "_" ++ fmt03 enumeration ++
    String.mk (splitext filename.data).2

/-- The replacement reference URL for the new attachment (line 190). -/
def newAttachmentUrlOf (cleanUrl : String) (newId : Nat) (newFilename : String) : String :=
  cleanUrl ++ "/attachment/" ++ toString newId ++ "/" ++ newFilename

/-- The fallback direct download URL (line 143). -/
def directUrlOf (cleanUrl src : String) : String :=
  cleanUrl ++ "/" ++ String.mk (lstripChar '/' src.data)

/-- The download section, lines 115-153: try the official attachment file
endpoint; on an HTTP 404 fall back to the direct URL; re-raise every other
error.  Returns the issued events together with either the staged filename
and content or the escaping exception. -/
def downloadPhase (env : Env) (cleanUrl aid src : String) :
    List Event × Except PyErr (String × List Nat) :=
  match env.apiDownload aid with
  | .ok resp =>
    let filename := stagedFilename resp src
    ([.apiFileDownload aid, .writeFile ("DOWNLOADED/" ++ filename) resp.content],
      .ok (filename, resp.content))
  | .error e =>
    match e with
    | .http code =>
      if code = 404 then
        let directUrl := directUrlOf cleanUrl src
        match env.directDownload directUrl with
        | .ok resp =>
          let filename := String.mk (basename directUrl.data)
          ([.apiFileDownload aid, .directFileDownload directUrl,
              .writeFile ("DOWNLOADED/" ++ filename) resp.content],
            .ok (filename, resp.content))
        | .error e2 =>
          ([.apiFileDownload aid, .directFileDownload directUrl], .error e2)
      else ([.apiFileDownload aid], .error (.http code))
    | .other m => ([.apiFileDownload aid], .error (.other m))

/-- Outcome of processing one `(api_id, global_id)` pair: the appended row,
the sequence counter after the item, and the issued events. -/
structure StepOut where
  record : Record
  enum : Nat
  events : List Event
  deriving DecidableEq

/-- Lines 155-203: rename, create the attachment metadata record, upload the
bytes, substitute the reference in the HTML, patch the item, and on full
success delete the staged file and increment the counter.  Every error
escapes to the per-item handler, which appends a Skipped row. -/
def afterDownload (env : Env) (cleanUrl : String) (projectId enumeration apiId : Nat)
    (globalId html src : String) (evs : List Event) (filename : String)
    (content : List Nat) : StepOut :=
  let tempPath := "DOWNLOADED/" ++ filename
  let newFilename := newFilenameOf filename enumeration
  match env.createAttachment newFilename with
  | .error _ =>
    ⟨skipRec cleanUrl projectId apiId globalId, enumeration, evs ++ [.createAtt newFilename]⟩
  | .ok newId =>
    match env.uploadContent newId content with
    | .error _ =>
      ⟨skipRec cleanUrl projectId apiId globalId, enumeration,
        evs ++ [.createAtt newFilename, .uploadAtt newId content]⟩
    | .ok _ =>
      let newHtml := replaceAllStr src (newAttachmentUrlOf cleanUrl newId newFilename) html
      match env.putItem apiId newHtml with
      | .error _ =>
        ⟨skipRec cleanUrl projectId apiId globalId, enumeration,
          evs ++ [.createAtt newFilename, .uploadAtt newId content, .putItem apiId newHtml]⟩
      | .ok _ =>
        ⟨updRec cleanUrl projectId apiId globalId, enumeration + 1,
          evs ++ [.createAtt newFilename, .uploadAtt newId content, .putItem apiId newHtml,
            .removeFile tempPath]⟩

/-- One iteration of the loop of lines 80-209, with the two `except` clauses
folded in: every failure of a fallible call yields the Skipped row of the
per-item handler and never escapes. -/
def processItem (env : Env) (cleanUrl : String) (projectId enumeration apiId : Nat)
    (globalId : String) : StepOut :=
  match env.fetchDescription apiId with
  | .error _ => ⟨skipRec cleanUrl projectId apiId globalId, enumeration, [.getItem apiId]⟩
  | .ok html =>
    if html = "" then
      ⟨skipRec cleanUrl projectId apiId globalId, enumeration, [.getItem apiId]⟩
    else
      match env.soupFindImgSrc html with
      | none => ⟨skipRec cleanUrl projectId apiId globalId, enumeration, [.getItem apiId]⟩
      | some none => ⟨skipRec cleanUrl projectId apiId globalId, enumeration, [.getItem apiId]⟩
      | some (some src) =>
        match extractAttachmentId src with
        | none => ⟨skipRec cleanUrl projectId apiId globalId, enumeration, [.getItem apiId]⟩
        | some aid =>
          match downloadPhase env cleanUrl aid src with
          | (evs, .error _) =>
            ⟨skipRec cleanUrl projectId apiId globalId, enumeration, .getItem apiId :: evs⟩
          | (evs, .ok (filename, content)) =>
            afterDownload env cleanUrl projectId enumeration apiId globalId html src
              (.getItem apiId :: evs) filename content

/-- The whole per-item loop: one row per pair, threading the counter. -/
def runLoop (env : Env) (cleanUrl : String) (projectId : Nat) :
    Nat → List (Nat × String) → List Record × Nat × List Event
  | e, [] => ([], e, [])
  | e, (apiId, gid) :: rest =>
    let s := processItem env cleanUrl projectId e apiId gid
    let r := runLoop env cleanUrl projectId s.enum rest
    (s.record :: r.1, r.2.1, s.events ++ r.2.2)

/-- The pagination loop of lines 42-55: request the page at the current
offset, stop as soon as a page has fewer than `max_results = 50` rows,
otherwise advance the offset by 50.  The loop has no bound of its own, so the
model takes fuel and returns `none` if no page within the fuel is short. -/
def fetchPages (env : Env) : Nat → Nat → Option (List ListItem)
  | 0, _ => none
  | fuel + 1, startAt =>
    let page := env.listingPage startAt
    if page.length < 50 then some page
    else
      match fetchPages env fuel (startAt + 50) with
      | none => none
      | some rest => some (page ++ rest)

/-- Line 58: the dict comprehension from global id to internal id over all
listed items (later items overwrite earlier ones holding the same key). -/
def buildAllItemsDict (items : List ListItem) : List (String × Nat) :=
  items.foldl (fun d it => dinsert it.globalId it.id d) []

/-- Lines 66-71: intersect the requested global ids against the project
dict, building `item_map` keyed by internal id, and collect a warning for
every requested id absent from the project. -/
def buildItemMap (allDict : List (String × Nat)) :
    List String → List (Nat × String) → List (Nat × String) × List String
  | [], imap => (imap, [])
  | g :: gs, imap =>
    match dlookup g allDict with
    | some a => buildItemMap allDict gs (dinsert a g imap)
    | none =>
      let r := buildItemMap allDict gs imap
      (r.1, g :: r.2)

/-- The project dict as computed by the run (pagination then line 58). -/
def allItemsDictOf (env : Env) (fuel : Nat) : Option (List (String × Nat)) :=
  (fetchPages env fuel 0).map buildAllItemsDict

/-- The `item_map` as computed by the run (lines 60-71). -/
def itemMapOf (env : Env) (fuel : Nat) (filePath : String) : Option (List (Nat × String)) :=
  (allItemsDictOf env fuel).map (fun d => (buildItemMap d (env.readExcel filePath) []).1)

/-- Observable outcome of one run: the rows, the final counter value, the
per-item event trace, the not-found warnings, the report (the rows rendered
into the document, `none` when no document is written), and whether the run
took the early `return` of lines 73-75. -/
structure RunResult where
  records : List Record
  finalEnum : Nat
  events : List Event
  warnings : List String
  report : Option (List Record)
  earlyExit : Bool
  deriving DecidableEq

/-- Translation of `update_jama_attachments(url, session, project_ID,
attachment_ID, file_path, basic_oauth)` (lines 12-240 of src/Functions.py).
The session is the environment; `fuel` bounds the unbounded pagination loop
(`none` = the loop never saw a short page within the fuel).  As in the
source, `attachment_ID` and `basic_oauth` are parameters of the signature
that the body never reads. -/
def update_jama_attachments (fuel : Nat) (env : Env) (url : String)
    (project_ID attachment_ID : Nat) (file_path basic_oauth : String) : Option RunResult :=
  let cleanUrl := String.mk (rstripChar '/' url.data)
  match fetchPages env fuel 0 with
  | none => none
  | some allItemsData =>
    let allDict := buildAllItemsDict allItemsData
    let r := buildItemMap allDict (env.readExcel file_path) []
    let imap := r.1
    let warns := r.2
    if imap = [] then
      some ⟨[], 1, [], warns, none, true⟩
    else
      let lr := runLoop env cleanUrl project_ID 1 imap
      some ⟨lr.1, lr.2.1, lr.2.2, warns, some lr.1, false⟩

/-- The pattern `pat` occurs in `s` at exactly one position. -/
def occursExactlyOnce (pat s : List Char) : Prop :=
  ∃ i : Fin s.length, matchesAt pat s i.val ∧
    ∀ j : Fin s.length, matchesAt pat s j.val → j = i

instance (pat s : List Char) : Decidable (occursExactlyOnce pat s) := by
  unfold occursExactlyOnce
  infer_instance

/-- Holds when `out` is `orig` with `pat` replaced by `rep` at exactly one position and
is byte-for-byte identical to `orig` everywhere else. -/
def differsOnlyAtSubst (orig pat rep out : List Char) : Prop :=
  ∃ i : Fin (orig.length + 1),
    orig = orig.take i.val ++ pat ++ orig.drop (i.val + pat.length) ∧
    out = orig.take i.val ++ rep ++ orig.drop (i.val + pat.length)

instance (orig pat rep out : List Char) : Decidable (differsOnlyAtSubst orig pat rep out) := by
  unfold differsOnlyAtSubst
  infer_instance

/-- The number of Updated rows in a batch. -/
def countUpdated (rs : List Record) : Nat :=
  rs.countP (fun r => r.status == "Updated")

def pagesUpTo (env : Env) : Nat → Nat → List ListItem
  | start, 0 => env.listingPage start
  | start, k + 1 => env.listingPage start ++ pagesUpTo env (start + 50) k

/-! Concrete environments used by the witnesses and the counterexample. -/

def htmlW : String := "<p><img src=\"/attachment/77/pic.png\"></p>"

def srcW : String := "/attachment/77/pic.png"

def html404W : String := "<p><img src=\"/attachment/88/old.png\"></p>"

def src404W : String := "/attachment/88/old.png"

def html500W : String := "<p><img src=\"/attachment/99/old.png\"></p>"

def src500W : String := "/attachment/99/old.png"

def respW : DownloadResp := ⟨"attachment; filename=\"pic.png\"", [1, 2, 3]⟩

/-- A small project with one item; item 5 follows the full Updated path,
item 6 has an empty description, item 7 hits the 404 fallback, item 8 hits a
non-404 download failure. -/
def envW : Env :=
  ⟨fun s => if s = 0 then [⟨5, "G1"⟩] else [],
   fun _ => ["G1", "MISSING"],
   fun a =>
     if a = 5 then .ok htmlW
     else if a = 6 then .ok ""
     else if a = 7 then .ok html404W
     else if a = 8 then .ok html500W
     else .error (.other "boom"),
   fun h =>
     if h = htmlW then some (some srcW)
     else if h = html404W then some (some src404W)
     else if h = html500W then some (some src500W)
     else none,
   fun aid =>
     if aid = "77" then .ok respW
     else if aid = "88" then .error (.http 404)
     else if aid = "99" then .error (.http 500)
     else .error (.other "e"),
   fun _ => .ok ⟨"", [9]⟩,
   fun _ => .ok 123,
   fun _ _ => .ok (),
   fun _ _ => .ok ()⟩

/-- The expected outcome of running `update_jama_attachments` on `envW`. -/
def resW : RunResult :=
  ⟨[⟨"G1", "https://x/perspective.req#/items/5?projectId=3", "Updated"⟩],
   2,
   [.getItem 5, .apiFileDownload "77", .writeFile "DOWNLOADED/pic.png" [1, 2, 3],
     .createAtt "pic_001.png", .uploadAtt 123 [1, 2, 3],
     .putItem 5 "<p><img src=\"https://x/attachment/123/pic_001.png\"></p>",
     .removeFile "DOWNLOADED/pic.png"],
   ["MISSING"],
   some [⟨"G1", "https://x/perspective.req#/items/5?projectId=3", "Updated"⟩],
   false⟩

/-- A project in which no requested identifier resolves. -/
def envW10 : Env :=
  ⟨fun _ => [],
   fun _ => ["NOPE"],
   fun _ => .error (.other "x"),
   fun _ => none,
   fun _ => .error (.other "x"),
   fun _ => .error (.other "x"),
   fun _ => .error (.other "x"),
   fun _ _ => .error (.other "x"),
   fun _ _ => .error (.other "x")⟩

def htmlC1 : String :=
  "<p><img src=\"/attachment/7/a.png\"><img src=\"/attachment/7/a.png\"></p>"

def srcC1 : String := "/attachment/7/a.png"

/-- An item whose description embeds the same pasted image twice; the scrape
returns the first img tag, exactly as BeautifulSoup would. -/
def envC1 : Env :=
  ⟨fun s => if s = 0 then [⟨10, "GA"⟩] else [],
   fun _ => ["GA"],
   fun a => if a = 10 then .ok htmlC1 else .error (.other "boom"),
   fun h => if h = htmlC1 then some (some srcC1) else none,
   fun aid => if aid = "7" then .ok ⟨"attachment; filename=\"a.png\"", [1]⟩
     else .error (.other "e"),
   fun _ => .ok ⟨"", [9]⟩,
   fun _ => .ok 9,
   fun _ _ => .ok (),
   fun _ _ => .ok ()⟩

def newUrlC1 : String := "https://j/attachment/9/a_001.png"

/-- The scan result does not depend on the fuel, as long as the fuel covers
the length of the string. -/
theorem replaceAllAux_fuel (pat rep : List Char) :
    ∀ f1 f2 s, s.length ≤ f1 → s.length ≤ f2 →
      replaceAllAux pat rep f1 s = replaceAllAux pat rep f2 s := by
  intro f1
  induction f1 with
  | zero =>
    intro f2 s h1 _
    have : s = [] := List.eq_nil_of_length_eq_zero (Nat.le_zero.mp h1)
    subst this
    cases f2 <;> rfl
  | succ g ih =>
    intro f2 s h1 h2
    cases s with
    | nil => cases f2 <;> rfl
    | cons c cs =>
      cases f2 with
      | zero => simp at h2
      | succ h =>
        simp only [List.length_cons] at h1 h2
        by_cases hcond : pat ≠ [] ∧ matchesAt pat (c :: cs) 0
        · have hp : 0 < pat.length := List.length_pos.mpr hcond.1
          rw [replaceAllAux, replaceAllAux, if_pos hcond, if_pos hcond]
          congr 1
          exact ih h ((c :: cs).drop pat.length)
            (by simp only [List.length_drop, List.length_cons]; omega)
            (by simp only [List.length_drop, List.length_cons]; omega)
        · by_cases hemp : pat = []
          · rw [replaceAllAux, replaceAllAux, if_neg hcond, if_neg hcond,
              if_pos hemp, if_pos hemp]
            have := ih h cs (by omega) (by omega)
            rw [this]
          · rw [replaceAllAux, replaceAllAux, if_neg hcond, if_neg hcond,
              if_neg hemp, if_neg hemp]
            have := ih h cs (by omega) (by omega)
            rw [this]

theorem replaceAll_cons_match {pat : List Char} (rep : List Char) {c : Char}
    {cs : List Char} (hpat : pat ≠ []) (hm : matchesAt pat (c :: cs) 0) :
    replaceAll pat rep (c :: cs) = rep ++ replaceAll pat rep ((c :: cs).drop pat.length) := by
  have hp : 0 < pat.length := List.length_pos.mpr hpat
  show replaceAllAux pat rep (cs.length + 1) (c :: cs) = _
  rw [replaceAllAux, if_pos ⟨hpat, hm⟩]
  congr 1
  exact replaceAllAux_fuel pat rep cs.length ((c :: cs).drop pat.length).length _
    (by simp only [List.length_drop, List.length_cons]; omega) (Nat.le_refl _)

theorem replaceAll_cons_nomatch {pat : List Char} (rep : List Char) {c : Char}
    {cs : List Char} (hpat : pat ≠ []) (hm : ¬ matchesAt pat (c :: cs) 0) :
    replaceAll pat rep (c :: cs) = c :: replaceAll pat rep cs := by
  show replaceAllAux pat rep (cs.length + 1) (c :: cs) = _
  rw [replaceAllAux, if_neg (fun h => hm h.2), if_neg hpat]
  rfl

/-! ## Properties of the literal substring replacement -/

theorem matchesAt_cons (pat : List Char) (c : Char) (l : List Char) (j : Nat) :
    matchesAt pat (c :: l) (j + 1) ↔ matchesAt pat l j := by
  simp [matchesAt, List.drop_succ_cons]

theorem matchesAt_lt_length {pat s : List Char} {j : Nat} (hpat : pat ≠ [])
    (h : matchesAt pat s j) : j + pat.length ≤ s.length := by
  have hlen := congrArg List.length h
  simp only [List.length_take, List.length_drop] at hlen
  have hp : 0 < pat.length := List.length_pos.mpr hpat
  omega

theorem matchesAt_append_right (pat u t : List Char) (k : Nat)
    (h : matchesAt pat t k) : matchesAt pat (u ++ t) (u.length + k) := by
  unfold matchesAt at h ⊢
  rw [List.drop_append k]
  exact h

theorem replaceAll_nil (pat rep : List Char) (hpat : pat ≠ []) :
    replaceAll pat rep [] = [] := by
  show (if pat = [] then rep else []) = []
  rw [if_neg hpat]

theorem replaceAll_append_no_match (pat rep : List Char) (hpat : pat ≠ []) :
    ∀ a t : List Char, (∀ j, j < a.length → ¬ matchesAt pat (a ++ t) j) →
      replaceAll pat rep (a ++ t) = a ++ replaceAll pat rep t
  | [], t, _ => by simp
  | c :: a2, t, h => by
    have hnm : ¬ matchesAt pat (c :: (a2 ++ t)) 0 := by
      have := h 0 (by simp)
      simpa using this
    rw [List.cons_append, replaceAll_cons_nomatch rep hpat hnm]
    have ih := replaceAll_append_no_match pat rep hpat a2 t (fun j hj => by
      have := h (j + 1) (by simpa using Nat.succ_lt_succ hj)
      rw [List.cons_append, matchesAt_cons] at this
      exact this)
    rw [ih]
    rfl

theorem replaceAll_head_match (pat rep b : List Char) (hpat : pat ≠ []) :
    replaceAll pat rep (pat ++ b) = rep ++ replaceAll pat rep b := by
  cases hp : pat with
  | nil => exact absurd hp hpat
  | cons p pr =>
    subst hp
    have hm : matchesAt (p :: pr) ((p :: pr) ++ b) 0 := by
      unfold matchesAt
      simp only [List.drop_zero]
      exact List.take_left (p :: pr) b
    have hm2 : matchesAt (p :: pr) (p :: (pr ++ b)) 0 := hm
    rw [List.cons_append, replaceAll_cons_match rep hpat hm2]
    show rep ++ replaceAll (p :: pr) rep (((p :: pr) ++ b).drop (p :: pr).length) = _
    rw [List.drop_left]

theorem replaceAll_no_match (pat rep t : List Char) (hpat : pat ≠ [])
    (h : ∀ j, ¬ matchesAt pat t j) : replaceAll pat rep t = t := by
  have := replaceAll_append_no_match pat rep hpat t []
    (fun j _ => by simpa using h j)
  simpa [replaceAll_nil pat rep hpat] using this

/-- If `pat` matches the decomposed string only at the seam position, the
replacement rewrites exactly that occurrence. -/
theorem replaceAll_single_occ (pat rep a b : List Char) (hpat : pat ≠ [])
    (huniq : ∀ j, matchesAt pat (a ++ pat ++ b) j → j = a.length) :
    replaceAll pat rep (a ++ pat ++ b) = a ++ rep ++ b := by
  have huniq2 : ∀ j, matchesAt pat (a ++ (pat ++ b)) j → j = a.length := by
    rw [← List.append_assoc]
    exact huniq
  have hp : 0 < pat.length := List.length_pos.mpr hpat
  rw [List.append_assoc]
  rw [replaceAll_append_no_match pat rep hpat a (pat ++ b)
    (fun j hj hm => by have := huniq2 j hm; omega)]
  rw [replaceAll_head_match pat rep b hpat]
  rw [replaceAll_no_match pat rep b hpat (fun k hm => by
    have h1 := matchesAt_append_right pat pat b k hm
    have h2 := matchesAt_append_right pat a (pat ++ b) (pat.length + k) h1
    have := huniq2 (a.length + (pat.length + k)) h2
    omega)]
  rw [List.append_assoc]

/-- The positional phrasing agrees with the decomposition phrasing: the
output splits around `rep` precisely where the original splits around
`pat`, with the two context parts shared. -/
theorem differsOnlyAtSubst_iff (orig pat rep out : List Char) :
    differsOnlyAtSubst orig pat rep out ↔
      ∃ a b : List Char, orig = a ++ pat ++ b ∧ out = a ++ rep ++ b := by
  constructor
  · rintro ⟨i, h1, h2⟩
    exact ⟨orig.take i.val, orig.drop (i.val + pat.length), h1, h2⟩
  · rintro ⟨a, b, h1, h2⟩
    have hlen : a.length + pat.length + b.length = orig.length := by
      rw [h1]
      simp
      omega
    have htake : orig.take a.length = a := by
      rw [h1, List.append_assoc]
      exact List.take_left a (pat ++ b)
    have hdrop : orig.drop (a.length + pat.length) = b := by
      rw [h1, show (a.length + pat.length) = (a ++ pat).length by simp]
      exact List.drop_left (a ++ pat) b
    exact ⟨⟨a.length, by omega⟩, by rw [htake, hdrop]; exact h1,
      by rw [htake, hdrop]; exact h2⟩

/-- When the old reference occurs exactly once, the literal replacement that
the program performs changes the string at that occurrence only. -/
theorem replaceAll_of_unique (pat rep s : List Char) (hpat : pat ≠ [])
    (h : occursExactlyOnce pat s) :
    differsOnlyAtSubst s pat rep (replaceAll pat rep s) := by
  obtain ⟨i, hm, huni⟩ := h
  have hp : 0 < pat.length := List.length_pos.mpr hpat
  have hle : i.val + pat.length ≤ s.length := matchesAt_lt_length hpat hm
  have huniq : ∀ j, matchesAt pat s j → j = i.val := by
    intro j hj
    have hjle := matchesAt_lt_length hpat hj
    have := huni ⟨j, by omega⟩ hj
    exact congrArg Fin.val this
  have hdec : s = s.take i.val ++ pat ++ s.drop (i.val + pat.length) := by
    unfold matchesAt at hm
    conv_lhs => rw [← List.take_append_drop i.val s]
    rw [List.append_assoc]
    congr 1
    conv_lhs => rw [← List.take_append_drop pat.length (s.drop i.val)]
    rw [hm, List.drop_drop]
    try congr 2
    try omega
  have hlentake : (s.take i.val).length = i.val := by
    simp
    try omega
  refine ⟨⟨i.val, by omega⟩, hdec, ?_⟩
  have huniq2 : ∀ j, matchesAt pat
      (s.take i.val ++ pat ++ s.drop (i.val + pat.length)) j →
      j = (s.take i.val).length := by
    rw [← hdec, hlentake]
    exact huniq
  conv_lhs => rw [hdec]
  rw [replaceAll_single_occ pat rep _ _ hpat huniq2]

/-! ## Structural facts about the per-item step and the loop -/

theorem afterDownload_spec (env : Env) (cleanUrl : String) (projectId e apiId : Nat)
    (gid html src : String) (evs : List Event) (fn : String) (content : List Nat) :
    (afterDownload env cleanUrl projectId e apiId gid html src evs fn content).record.id = gid ∧
    (afterDownload env cleanUrl projectId e apiId gid html src evs fn content).record.url =
      recordUrl cleanUrl projectId apiId ∧
    (((afterDownload env cleanUrl projectId e apiId gid html src evs fn content).record.status =
          "Skipped" ∧
        (afterDownload env cleanUrl projectId e apiId gid html src evs fn content).enum = e) ∨
      ((afterDownload env cleanUrl projectId e apiId gid html src evs fn content).record.status =
          "Updated" ∧
        (afterDownload env cleanUrl projectId e apiId gid html src evs fn content).enum = e + 1)) := by
  unfold afterDownload
  cases hca : env.createAttachment (newFilenameOf fn e) with
  | error err => simp [hca, skipRec, updRec]
  | ok newId =>
    cases hup : env.uploadContent newId content with
    | error err => simp [hca, hup, skipRec, updRec]
    | ok u =>
      cases hpi : env.putItem apiId
          (replaceAllStr src (newAttachmentUrlOf cleanUrl newId (newFilenameOf fn e)) html) with
      | error err => simp [hca, hup, hpi, skipRec, updRec]
      | ok v => simp [hca, hup, hpi, skipRec, updRec]

theorem processItem_spec (env : Env) (cleanUrl : String) (projectId e apiId : Nat) (gid : String) :
    (processItem env cleanUrl projectId e apiId gid).record.id = gid ∧
    (processItem env cleanUrl projectId e apiId gid).record.url = recordUrl cleanUrl projectId apiId ∧
    (((processItem env cleanUrl projectId e apiId gid).record.status = "Skipped" ∧
        (processItem env cleanUrl projectId e apiId gid).enum = e) ∨
      ((processItem env cleanUrl projectId e apiId gid).record.status = "Updated" ∧
        (processItem env cleanUrl projectId e apiId gid).enum = e + 1)) := by
  unfold processItem
  cases hfd : env.fetchDescription apiId with
  | error err => simp [hfd, skipRec]
  | ok html =>
    by_cases hh : html = ""
    · simp [hfd, hh, skipRec]
    · cases hfi : env.soupFindImgSrc html with
      | none => simp [hfd, hh, hfi, skipRec]
      | some osrc =>
        cases osrc with
        | none => simp [hfd, hh, hfi, skipRec]
        | some src =>
          cases hex : extractAttachmentId src with
          | none => simp [hfd, hh, hfi, hex, skipRec]
          | some aid =>
            cases hdp : downloadPhase env cleanUrl aid src with
            | mk evs res =>
              cases res with
              | error err => simp [hfd, hh, hfi, hex, hdp, skipRec]
              | ok fc =>
                cases fc with
                | mk fn content =>
                  have h := afterDownload_spec env cleanUrl projectId e apiId gid html src
                    (Event.getItem apiId :: evs) fn content
                  simpa [hfd, hh, hfi, hex, hdp] using h

theorem runLoop_spec (env : Env) (cleanUrl : String) (projectId : Nat) :
    ∀ (pairs : List (Nat × String)) (e : Nat),
      (runLoop env cleanUrl projectId e pairs).1.map Record.id = pairs.map Prod.snd ∧
      (∀ r ∈ (runLoop env cleanUrl projectId e pairs).1,
        r.status = "Updated" ∨ r.status = "Skipped") ∧
      (runLoop env cleanUrl projectId e pairs).2.1 =
        e + countUpdated (runLoop env cleanUrl projectId e pairs).1
  | [], e => by simp [runLoop, countUpdated]
  | (apiId, gid) :: rest, e => by
    obtain ⟨hid, _, hstat⟩ := processItem_spec env cleanUrl projectId e apiId gid
    obtain ⟨ih1, ih2, ih3⟩ := runLoop_spec env cleanUrl projectId rest
      (processItem env cleanUrl projectId e apiId gid).enum
    refine ⟨?_, ?_, ?_⟩
    · simp [runLoop, hid, ih1]
    · intro r hr
      rw [runLoop] at hr
      simp only [List.mem_cons] at hr
      rcases hr with hr | hr
      · subst hr
        rcases hstat with ⟨h1, _⟩ | ⟨h1, _⟩
        · exact Or.inr h1
        · exact Or.inl h1
      · exact ih2 r hr
    · rw [runLoop]
      rcases hstat with ⟨h1, h2⟩ | ⟨h1, h2⟩
      · rw [h2] at ih3
        simp only [countUpdated, List.countP_cons] at ih3 ⊢
        simp [h1, h2, ih3]
      · rw [h2] at ih3
        simp only [countUpdated, List.countP_cons] at ih3 ⊢
        simp [h1, h2, ih3]
        omega

/-! ## Association-list dictionary lemmas -/

theorem dlookup_dinsert_self {K V : Type} [DecidableEq K] (k : K) (v : V) :
    ∀ d : List (K × V), dlookup k (dinsert k v d) = some v
  | [] => by simp [dinsert, dlookup]
  | (k2, v2) :: rest => by
    by_cases h : k2 = k
    · simp [dinsert, dlookup, h]
    · simp only [dinsert, dlookup, if_neg h]
      exact dlookup_dinsert_self k v rest

theorem dlookup_dinsert_ne {K V : Type} [DecidableEq K] (k k2 : K) (v : V)
    (h : k2 ≠ k) : ∀ d : List (K × V), dlookup k2 (dinsert k v d) = dlookup k2 d
  | [] => by
    simp only [dinsert, dlookup]
    rw [if_neg (Ne.symm h)]
  | (k3, v3) :: rest => by
    by_cases h3 : k3 = k
    · subst h3
      simp only [dinsert, if_pos rfl, dlookup]
      rw [if_neg (Ne.symm h), if_neg (Ne.symm h)]
    · simp only [dinsert, if_neg h3, dlookup]
      by_cases h4 : k3 = k2
      · rw [if_pos h4, if_pos h4]
      · rw [if_neg h4, if_neg h4]
        exact dlookup_dinsert_ne k k2 v h rest

theorem mem_dinsert {K V : Type} [DecidableEq K] (k : K) (v : V) (x : K × V) :
    ∀ d : List (K × V), x ∈ dinsert k v d → x = (k, v) ∨ x ∈ d
  | [] => by
    intro hx
    simp only [dinsert, List.mem_singleton] at hx
    exact Or.inl hx
  | (k2, v2) :: rest => by
    intro hx
    by_cases h : k2 = k
    · rw [dinsert, if_pos h] at hx
      rcases List.mem_cons.mp hx with h1 | h1
      · exact Or.inl h1
      · exact Or.inr (List.mem_cons.mpr (Or.inr h1))
    · rw [dinsert, if_neg h] at hx
      rcases List.mem_cons.mp hx with h1 | h1
      · exact Or.inr (List.mem_cons.mpr (Or.inl h1))
      · rcases mem_dinsert k v x rest h1 with h2 | h2
        · exact Or.inl h2
        · exact Or.inr (List.mem_cons.mpr (Or.inr h2))

theorem fst_mem_dinsert {K V : Type} [DecidableEq K] (k k2 : K) (v : V)
    (d : List (K × V)) (h : k2 ∈ (dinsert k v d).map Prod.fst) :
    k2 = k ∨ k2 ∈ d.map Prod.fst := by
  rcases List.mem_map.mp h with ⟨x, hx, hfst⟩
  rcases mem_dinsert k v x d hx with h2 | h2
  · left
    rw [← hfst, h2]
  · right
    exact List.mem_map.mpr ⟨x, h2, hfst⟩

theorem nodup_keys_dinsert {K V : Type} [DecidableEq K] (k : K) (v : V) :
    ∀ d : List (K × V), (d.map Prod.fst).Nodup → ((dinsert k v d).map Prod.fst).Nodup
  | [] => by simp [dinsert]
  | (k2, v2) :: rest => by
    intro hnd
    simp only [List.map_cons, List.nodup_cons] at hnd
    by_cases h : k2 = k
    · subst h
      rw [dinsert, if_pos rfl]
      simp only [List.map_cons, List.nodup_cons]
      exact ⟨hnd.1, hnd.2⟩
    · simp only [dinsert, if_neg h, List.map_cons, List.nodup_cons]
      refine ⟨?_, nodup_keys_dinsert k v rest hnd.2⟩
      intro hmem
      rcases fst_mem_dinsert k k2 v rest hmem with h2 | h2
      · exact h h2
      · exact hnd.1 h2

theorem dlookup_ne_none_iff {K V : Type} [DecidableEq K] (k : K) :
    ∀ d : List (K × V), dlookup k d ≠ none ↔ k ∈ d.map Prod.fst
  | [] => by simp [dlookup]
  | (k2, v2) :: rest => by
    by_cases h : k2 = k
    · subst h
      simp [dlookup]
    · simp only [dlookup, if_neg h, List.map_cons, List.mem_cons]
      rw [dlookup_ne_none_iff k rest]
      constructor
      · exact fun hm => Or.inr hm
      · rintro (hm | hm)
        · exact absurd hm.symm h
        · exact hm

theorem foldl_dinsert_pres :
    ∀ (items : List ListItem) (d : List (String × Nat)) (g : String),
      dlookup g d ≠ none →
      dlookup g (items.foldl (fun acc it => dinsert it.globalId it.id acc) d) ≠ none
  | [], d, g, h => by simpa using h
  | it :: rest, d, g, h => by
    simp only [List.foldl_cons]
    apply foldl_dinsert_pres rest
    by_cases hg : g = it.globalId
    · subst hg
      rw [dlookup_dinsert_self]
      simp
    · rw [dlookup_dinsert_ne it.globalId g it.id hg]
      exact h

theorem foldl_dinsert_covers :
    ∀ (items : List ListItem) (d : List (String × Nat)) (it : ListItem), it ∈ items →
      dlookup it.globalId (items.foldl (fun acc x => dinsert x.globalId x.id acc) d) ≠ none
  | [], _, it, h => absurd h (List.not_mem_nil it)
  | x :: rest, d, it, h => by
    simp only [List.foldl_cons]
    rcases List.mem_cons.mp h with h1 | h1
    · subst h1
      apply foldl_dinsert_pres rest
      rw [dlookup_dinsert_self]
      simp
    · exact foldl_dinsert_covers rest _ it h1

theorem buildAllItemsDict_covers (items : List ListItem) (it : ListItem) (h : it ∈ items) :
    dlookup it.globalId (buildAllItemsDict items) ≠ none :=
  foldl_dinsert_covers items [] it h

theorem foldl_dinsert_nodup :
    ∀ (items : List ListItem) (d : List (String × Nat)), (d.map Prod.fst).Nodup →
      ((items.foldl (fun acc x => dinsert x.globalId x.id acc) d).map Prod.fst).Nodup
  | [], d, h => by simpa using h
  | x :: rest, d, h => by
    simp only [List.foldl_cons]
    exact foldl_dinsert_nodup rest _ (nodup_keys_dinsert _ _ _ h)

theorem buildAllItemsDict_nodup (items : List ListItem) :
    ((buildAllItemsDict items).map Prod.fst).Nodup :=
  foldl_dinsert_nodup items [] (by simp)

theorem buildItemMap_inv (allDict : List (String × Nat)) :
    ∀ (gs : List String) (imap : List (Nat × String)),
      (∀ p ∈ imap, dlookup p.2 allDict = some p.1) →
      ∀ p ∈ (buildItemMap allDict gs imap).1, dlookup p.2 allDict = some p.1
  | [], imap, hinv => by simpa [buildItemMap] using hinv
  | g :: gs, imap, hinv => by
    rw [buildItemMap]
    cases hg : dlookup g allDict with
    | some a =>
      apply buildItemMap_inv allDict gs
      intro p hp
      rcases mem_dinsert a g p imap hp with h1 | h1
      · rw [h1]
        exact hg
      · exact hinv p h1
    | none =>
      exact buildItemMap_inv allDict gs imap hinv

theorem buildItemMap_nodup (allDict : List (String × Nat)) :
    ∀ (gs : List String) (imap : List (Nat × String)), (imap.map Prod.fst).Nodup →
      ((buildItemMap allDict gs imap).1.map Prod.fst).Nodup
  | [], imap, hnd => by simpa [buildItemMap] using hnd
  | g :: gs, imap, hnd => by
    rw [buildItemMap]
    cases hg : dlookup g allDict with
    | some a => exact buildItemMap_nodup allDict gs _ (nodup_keys_dinsert a g imap hnd)
    | none => exact buildItemMap_nodup allDict gs imap hnd

theorem buildItemMap_warn (allDict : List (String × Nat)) :
    ∀ (gs : List String) (imap : List (Nat × String)) (g : String),
      g ∈ gs → dlookup g allDict = none → g ∈ (buildItemMap allDict gs imap).2
  | [], _, g, hmem, _ => absurd hmem (List.not_mem_nil g)
  | g2 :: gs, imap, g, hmem, hnone => by
    rw [buildItemMap]
    rcases List.mem_cons.mp hmem with h1 | h1
    · subst h1
      rw [hnone]
      exact List.mem_cons_self g _
    · cases hg : dlookup g2 allDict with
      | some a => exact buildItemMap_warn allDict gs _ g h1 hnone
      | none => exact List.mem_cons.mpr (Or.inr (buildItemMap_warn allDict gs imap g h1 hnone))

theorem count_value_le_one (allDict : List (String × Nat)) :
    ∀ d : List (Nat × String), (d.map Prod.fst).Nodup →
      (∀ p ∈ d, dlookup p.2 allDict = some p.1) →
      ∀ g : String, d.countP (fun p => p.2 == g) ≤ 1
  | [], _, _, g => by simp
  | (a, v) :: rest, hnd, hinv, g => by
    simp only [List.map_cons, List.nodup_cons] at hnd
    rw [List.countP_cons]
    by_cases hv : v = g
    · subst hv
      have hz : rest.countP (fun p => p.2 == v) = 0 := by
        rw [List.countP_eq_zero]
        intro p hp hbeq
        have hpv : p.2 = v := by simpa using hbeq
        have h1 := hinv p (List.mem_cons.mpr (Or.inr hp))
        have h2 := hinv (a, v) (List.mem_cons_self _ _)
        rw [hpv] at h1
        rw [h1] at h2
        have hpa : p.1 = a := by
          injection h2
        exact hnd.1 (List.mem_map.mpr ⟨p, hp, hpa⟩)
      rw [hz]
      simp
    · have hvg : ((a, v).2 == g) = false := by
        simpa using hv
      rw [hvg]
      simpa using count_value_le_one allDict rest hnd.2
        (fun p hp => hinv p (List.mem_cons.mpr (Or.inr hp))) g

theorem fetchPages_spec (env : Env) :
    ∀ (k fuel start : Nat), k < fuel →
      (∀ j, j < k → ¬ (env.listingPage (start + 50 * j)).length < 50) →
      (env.listingPage (start + 50 * k)).length < 50 →
      fetchPages env fuel start = some (pagesUpTo env start k)
  | 0, fuel + 1, start, _, _, hshort => by
    rw [fetchPages]
    simp only [Nat.mul_zero, Nat.add_zero] at hshort
    rw [if_pos hshort]
    rfl
  | k + 1, fuel + 1, start, hk, hfull, hshort => by
    rw [fetchPages]
    have h0 : ¬ (env.listingPage start).length < 50 := by
      have := hfull 0 (Nat.succ_pos k)
      simpa using this
    rw [if_neg h0]
    have ih := fetchPages_spec env k fuel (start + 50) (by omega)
      (fun j hj => by
        have := hfull (j + 1) (by omega)
        have harith : start + 50 * (j + 1) = start + 50 + 50 * j := by ring
        rwa [harith] at this)
      (by
        have harith : start + 50 * (k + 1) = start + 50 + 50 * k := by ring
        rwa [harith] at hshort)
    rw [ih]
    rfl

theorem extractAttachmentId_ne_empty (src : String) (aid : String)
    (h : extractAttachmentId src = some aid) : src.data ≠ [] := by
  intro hnil
  rw [extractAttachmentId, hnil] at h
  simp [extractIdFrom] at h

theorem afterDownload_events_mono (env : Env) (cleanUrl : String)
    (projectId e apiId : Nat) (gid html src : String) (evs : List Event)
    (fn : String) (content : List Nat) (ev : Event) (h : ev ∈ evs) :
    ev ∈ (afterDownload env cleanUrl projectId e apiId gid html src evs fn content).events := by
  unfold afterDownload
  cases hca : env.createAttachment (newFilenameOf fn e) with
  | error err => simpa [hca] using Or.inl h
  | ok newId =>
    cases hup : env.uploadContent newId content with
    | error err => simpa [hca, hup] using Or.inl h
    | ok u =>
      cases hpi : env.putItem apiId
          (replaceAllStr src (newAttachmentUrlOf cleanUrl newId (newFilenameOf fn e)) html) with
      | error err => simpa [hca, hup, hpi] using Or.inl h
      | ok v => simpa [hca, hup, hpi] using Or.inl h

theorem afterDownload_createAtt_mem (env : Env) (cleanUrl : String)
    (projectId e apiId : Nat) (gid html src : String) (evs : List Event)
    (fn : String) (content : List Nat) :
    Event.createAtt (newFilenameOf fn e) ∈
      (afterDownload env cleanUrl projectId e apiId gid html src evs fn content).events := by
  unfold afterDownload
  cases hca : env.createAttachment (newFilenameOf fn e) with
  | error err => simp [hca]
  | ok newId =>
    cases hup : env.uploadContent newId content with
    | error err => simp [hca, hup]
    | ok u =>
      cases hpi : env.putItem apiId
          (replaceAllStr src (newAttachmentUrlOf cleanUrl newId (newFilenameOf fn e)) html) with
      | error err => simp [hca, hup, hpi]
      | ok v => simp [hca, hup, hpi]

theorem downloadPhase_ok_spec (env : Env) (cleanUrl aid src : String) (evs : List Event)
    (fn : String) (content : List Nat)
    (h : downloadPhase env cleanUrl aid src = (evs, .ok (fn, content))) :
    (∀ p c, Event.writeFile p c ∈ evs → p = "DOWNLOADED/" ++ fn) ∧
    (∀ p, Event.removeFile p ∉ evs) := by
  unfold downloadPhase at h
  cases hda : env.apiDownload aid with
  | ok resp =>
    rw [hda] at h
    simp only [Prod.mk.injEq, Except.ok.injEq] at h
    obtain ⟨he, hf, hc⟩ := h
    subst he
    subst hf
    constructor
    · intro p c hp
      simp at hp
      exact hp.1
    · intro p hp
      simp at hp
  | error err =>
    rw [hda] at h
    cases err with
    | http code =>
      by_cases h404 : code = 404
      · subst h404
        cases hdd : env.directDownload (directUrlOf cleanUrl src) with
        | ok resp =>
          simp only [hdd, if_true, eq_self_iff_true, Prod.mk.injEq, Except.ok.injEq] at h
          obtain ⟨he, hf, hc⟩ := h
          subst he
          subst hf
          constructor
          · intro p c hp
            simp at hp
            exact hp.1
          · intro p hp
            simp at hp
        | error e2 =>
          simp [hdd] at h
      · simp [h404] at h
    | other m =>
      simp at h

set_option maxRecDepth 16384 in
/-- C1 fails as stated: on an item whose description contains the old
reference twice, the HTML submitted back by the program (the payload of its
item-update request) is not the original changed at a single substituted
reference, because Python `str.replace` rewrites every occurrence. -/
theorem C1_counterexample :
    Event.putItem 10 (replaceAllStr srcC1 newUrlC1 htmlC1) ∈
      (processItem envC1 "https://j" 4 1 10 "GA").events ∧
    ¬ differsOnlyAtSubst htmlC1.data srcC1.data newUrlC1.data
      (replaceAllStr srcC1 newUrlC1 htmlC1).data := by
  constructor
  · decide
  · decide

/-- C1 (amended): for every item that reaches the item-update request -
whether its attachment came from the primary file endpoint or from the 404
direct-URL fallback - the HTML submitted back is the original with every
occurrence of the old src string literally replaced by the new attachment
URL; provided the old src string occurs exactly once in the HTML, the
submitted HTML differs from the original exactly at that one substituted
reference and every other byte is identical. -/
theorem C1_substitution (env : Env) (cleanUrl : String) (projectId e apiId : Nat)
    (gid html src aid : String) (evs : List Event) (fn : String) (content : List Nat)
    (newId : Nat)
    (h1 : env.fetchDescription apiId = .ok html) (h2 : html ≠ "")
    (h3 : env.soupFindImgSrc html = some (some src))
    (h4 : extractAttachmentId src = some aid)
    (hdp : downloadPhase env cleanUrl aid src = (evs, .ok (fn, content)))
    (h6 : env.createAttachment (newFilenameOf fn e) = .ok newId)
    (h7 : env.uploadContent newId content = .ok ()) :
    Event.putItem apiId (replaceAllStr src
        (newAttachmentUrlOf cleanUrl newId (newFilenameOf fn e)) html) ∈
      (processItem env cleanUrl projectId e apiId gid).events ∧
    (occursExactlyOnce src.data html.data →
      differsOnlyAtSubst html.data src.data
        (newAttachmentUrlOf cleanUrl newId (newFilenameOf fn e)).data
        (replaceAllStr src
          (newAttachmentUrlOf cleanUrl newId (newFilenameOf fn e)) html).data) := by
  constructor
  · simp only [processItem, h1, h3, h4, hdp, if_neg h2]
    simp only [afterDownload, h6, h7]
    cases hpi : env.putItem apiId (replaceAllStr src
        (newAttachmentUrlOf cleanUrl newId (newFilenameOf fn e)) html) with
    | error err => simp
    | ok v => simp
  · intro huniq
    have hsrc : src.data ≠ [] := extractAttachmentId_ne_empty src aid h4
    simpa [replaceAllStr] using
      replaceAll_of_unique src.data
        (newAttachmentUrlOf cleanUrl newId (newFilenameOf fn e)).data
        html.data hsrc huniq

set_option maxRecDepth 16384 in
/-- Witness for C1: the amended substitution statement holds on concrete
items taking each download path - item 5 staged via the primary file
endpoint and item 7 staged via the 404 direct-URL fallback - with the
single-occurrence implication discharged on both. -/
theorem C1_substitution_witness :
    (Event.putItem 5 (replaceAllStr srcW
        (newAttachmentUrlOf "https://x" 123 (newFilenameOf "pic.png" 1)) htmlW) ∈
      (processItem envW "https://x" 3 1 5 "G1").events ∧
    differsOnlyAtSubst htmlW.data srcW.data
      (newAttachmentUrlOf "https://x" 123 (newFilenameOf "pic.png" 1)).data
      (replaceAllStr srcW
        (newAttachmentUrlOf "https://x" 123 (newFilenameOf "pic.png" 1)) htmlW).data) ∧
    (Event.putItem 7 (replaceAllStr src404W
        (newAttachmentUrlOf "https://x" 123 (newFilenameOf "old.png" 1)) html404W) ∈
      (processItem envW "https://x" 3 1 7 "G7").events ∧
    differsOnlyAtSubst html404W.data src404W.data
      (newAttachmentUrlOf "https://x" 123 (newFilenameOf "old.png" 1)).data
      (replaceAllStr src404W
        (newAttachmentUrlOf "https://x" 123 (newFilenameOf "old.png" 1)) html404W).data) := by
  have h5 := C1_substitution envW "https://x" 3 1 5 "G1" htmlW srcW "77"
    [Event.apiFileDownload "77", Event.writeFile "DOWNLOADED/pic.png" [1, 2, 3]]
    "pic.png" [1, 2, 3] 123 rfl (by decide) rfl rfl rfl rfl rfl
  have h7 := C1_substitution envW "https://x" 3 1 7 "G7" html404W src404W "88"
    [Event.apiFileDownload "88", Event.directFileDownload (directUrlOf "https://x" src404W),
      Event.writeFile "DOWNLOADED/old.png" [9]]
    "old.png" [9] 123 rfl (by decide) rfl rfl rfl rfl rfl
  exact ⟨⟨h5.1, h5.2 (by decide)⟩, ⟨h7.1, h7.2 (by decide)⟩⟩

/-- C2: for every resolved pair the loop appends exactly one row whose
status is Updated or Skipped, in the order of the resolved map, so no
per-item failure aborts the batch (every fallible per-item call is matched
on and both outcomes continue the loop). -/
theorem C2_per_item_recovery (fuel : Nat) (env : Env) (url : String)
    (projectId attId : Nat) (fp bo : String) (imap : List (Nat × String)) (res : RunResult)
    (h1 : itemMapOf env fuel fp = some imap)
    (h2 : update_jama_attachments fuel env url projectId attId fp bo = some res) :
    res.records.map Record.id = imap.map Prod.snd ∧
    ∀ r ∈ res.records, r.status = "Updated" ∨ r.status = "Skipped" := by
  unfold itemMapOf allItemsDictOf at h1
  unfold update_jama_attachments at h2
  cases hfp : fetchPages env fuel 0 with
  | none =>
    rw [hfp] at h1
    simp at h1
  | some items =>
    rw [hfp] at h1 h2
    simp only [] at h2
    simp only [Option.map_some'] at h1
    have himap : (buildItemMap (buildAllItemsDict items) (env.readExcel fp) []).1 = imap := by
      injection h1
    by_cases hempty : (buildItemMap (buildAllItemsDict items) (env.readExcel fp) []).1 = []
    · rw [if_pos hempty] at h2
      simp only [Option.some.injEq] at h2
      rw [hempty] at himap
      subst himap
      rw [← h2]
      simp
    · rw [if_neg hempty] at h2
      simp only [Option.some.injEq] at h2
      obtain ⟨hl1, hl2, _⟩ := runLoop_spec env (String.mk (rstripChar '/' url.data)) projectId imap 1
      constructor
      · rw [← h2]
        simp only [himap]
        exact hl1
      · intro r hr
        rw [← h2] at hr
        simp only [himap] at hr
        exact hl2 r hr

set_option maxRecDepth 8192 in
/-- Witness for C2 on the concrete one-item run. -/
theorem C2_per_item_recovery_witness :
    resW.records.map Record.id = ([(5, "G1")] : List (Nat × String)).map Prod.snd ∧
    ∀ r ∈ resW.records, r.status = "Updated" ∨ r.status = "Skipped" :=
  C2_per_item_recovery 1 envW "https://x" 3 22 "f.xlsx" "basic" [(5, "G1")] resW rfl rfl

/-- C3: the sequence counter is threaded one increment per Updated row
(never on Skipped); across any run it ends at one plus the number of Updated
rows having started from one, so the values used are 1, 2, 3, ...; and the
renamed file is the stem, an underscore, the zero-padded counter and the
extension. -/
theorem C3_sequence_counter (env : Env) (cleanUrl : String) (projectId : Nat) :
    (∀ (pairs : List (Nat × String)) (e : Nat),
      (runLoop env cleanUrl projectId e pairs).2.1 =
        e + countUpdated (runLoop env cleanUrl projectId e pairs).1) ∧
    (∀ (e apiId : Nat) (gid : String),
      (processItem env cleanUrl projectId e apiId gid).record.status = "Updated" →
      (processItem env cleanUrl projectId e apiId gid).enum = e + 1) ∧
    (∀ (e apiId : Nat) (gid : String),
      (processItem env cleanUrl projectId e apiId gid).record.status = "Skipped" →
      (processItem env cleanUrl projectId e apiId gid).enum = e) ∧
    (∀ (fuel : Nat) (url : String) (pid2 attId : Nat) (fp bo : String) (res : RunResult),
      update_jama_attachments fuel env url pid2 attId fp bo = some res →
      res.finalEnum = 1 + countUpdated res.records) ∧
    (∀ (e apiId : Nat) (gid html src aid : String) (resp : DownloadResp),
      env.fetchDescription apiId = .ok html → html ≠ "" →
      env.soupFindImgSrc html = some (some src) → extractAttachmentId src = some aid →
      env.apiDownload aid = .ok resp →
      Event.createAtt (newFilenameOf (stagedFilename resp src) e) ∈
        (processItem env cleanUrl projectId e apiId gid).events) := by
  refine ⟨?_, ?_, ?_, ?_, ?_⟩
  · intro pairs e
    exact (runLoop_spec env cleanUrl projectId pairs e).2.2
  · intro e apiId gid hst
    rcases (processItem_spec env cleanUrl projectId e apiId gid).2.2 with ⟨h1, h2⟩ | ⟨h1, h2⟩
    · rw [hst] at h1
      exact absurd h1 (by decide)
    · exact h2
  · intro e apiId gid hst
    rcases (processItem_spec env cleanUrl projectId e apiId gid).2.2 with ⟨h1, h2⟩ | ⟨h1, h2⟩
    · exact h2
    · rw [hst] at h1
      exact absurd h1 (by decide)
  · intro fuel url pid2 attId fp bo res h2
    unfold update_jama_attachments at h2
    cases hfp : fetchPages env fuel 0 with
    | none =>
      rw [hfp] at h2
      simp at h2
    | some items =>
      rw [hfp] at h2
      simp only [] at h2
      by_cases hempty : (buildItemMap (buildAllItemsDict items) (env.readExcel fp) []).1 = []
      · rw [if_pos hempty] at h2
        simp only [Option.some.injEq] at h2
        rw [← h2]
        simp [countUpdated]
      · rw [if_neg hempty] at h2
        simp only [Option.some.injEq] at h2
        have hl := (runLoop_spec env (String.mk (rstripChar '/' url.data)) pid2
          (buildItemMap (buildAllItemsDict items) (env.readExcel fp) []).1 1).2.2
        rw [← h2]
        simpa using hl
  · intro e apiId gid html src aid resp h1 h2 h3 h4 h5
    simp only [processItem, h1, h3, h4, downloadPhase, h5, if_neg h2]
    exact afterDownload_createAtt_mem env cleanUrl projectId e apiId gid html src _
      (stagedFilename resp src) resp.content

set_option maxRecDepth 16384 in
/-- Witness for C3 on the concrete environment: the Updated item advances
the counter from 1 to 2, the Skipped item leaves it at 1, the run ends at
one plus the number of Updated rows, and the created attachment is named
with the zero-padded counter. -/
theorem C3_sequence_counter_witness :
    (runLoop envW "https://x" 3 1 [(5, "G1")]).2.1 =
      1 + countUpdated (runLoop envW "https://x" 3 1 [(5, "G1")]).1 ∧
    (processItem envW "https://x" 3 1 5 "G1").enum = 1 + 1 ∧
    (processItem envW "https://x" 3 1 6 "G6").enum = 1 ∧
    resW.finalEnum = 1 + countUpdated resW.records ∧
    Event.createAtt (newFilenameOf (stagedFilename respW srcW) 1) ∈
      (processItem envW "https://x" 3 1 5 "G1").events := by
  have h := C3_sequence_counter envW "https://x" 3
  exact ⟨h.1 [(5, "G1")] 1,
    h.2.1 1 5 "G1" (by decide),
    h.2.2.1 1 6 "G6" (by decide),
    h.2.2.2.1 1 "https://x" 3 22 "f.xlsx" "basic" resW rfl,
    h.2.2.2.2 1 5 "G1" htmlW srcW "77" respW rfl (by decide) rfl rfl rfl⟩

/-- C4: each requested global identifier yields at most one row in one run,
and a requested identifier absent from the project dictionary is added to
the warning log and never appears as the identifier of any row. -/
theorem C4_requested_ids (fuel : Nat) (env : Env) (url : String)
    (projectId attId : Nat) (fp bo : String) (d : List (String × Nat)) (res : RunResult)
    (hd : allItemsDictOf env fuel = some d)
    (h2 : update_jama_attachments fuel env url projectId attId fp bo = some res) :
    (∀ g ∈ env.readExcel fp, res.records.countP (fun r => r.id == g) ≤ 1) ∧
    (∀ g ∈ env.readExcel fp, dlookup g d = none →
      g ∈ res.warnings ∧ ∀ r ∈ res.records, r.id ≠ g) := by
  unfold allItemsDictOf at hd
  unfold update_jama_attachments at h2
  cases hfp : fetchPages env fuel 0 with
  | none =>
    rw [hfp] at hd
    simp at hd
  | some items =>
    rw [hfp] at hd h2
    simp only [Option.map_some', Option.some.injEq] at hd
    subst hd
    simp only [] at h2
    have hnodup : (((buildItemMap (buildAllItemsDict items) (env.readExcel fp) []).1).map
        Prod.fst).Nodup :=
      buildItemMap_nodup (buildAllItemsDict items) (env.readExcel fp) [] (by simp)
    have hinv : ∀ p ∈ (buildItemMap (buildAllItemsDict items) (env.readExcel fp) []).1,
        dlookup p.2 (buildAllItemsDict items) = some p.1 :=
      buildItemMap_inv (buildAllItemsDict items) (env.readExcel fp) [] (by simp)
    have hcount := count_value_le_one (buildAllItemsDict items)
      (buildItemMap (buildAllItemsDict items) (env.readExcel fp) []).1 hnodup hinv
    by_cases hempty : (buildItemMap (buildAllItemsDict items) (env.readExcel fp) []).1 = []
    · rw [if_pos hempty] at h2
      simp only [Option.some.injEq] at h2
      rw [← h2]
      constructor
      · intro g _
        simp
      · intro g hg hnone
        refine ⟨?_, by simp⟩
        exact buildItemMap_warn (buildAllItemsDict items) (env.readExcel fp) [] g hg hnone
    · rw [if_neg hempty] at h2
      simp only [Option.some.injEq] at h2
      obtain ⟨hl1, _, _⟩ := runLoop_spec env (String.mk (rstripChar '/' url.data)) projectId
        (buildItemMap (buildAllItemsDict items) (env.readExcel fp) []).1 1
      rw [← h2]
      constructor
      · intro g _
        have hmapcount :
            ((runLoop env (String.mk (rstripChar '/' url.data)) projectId 1
                (buildItemMap (buildAllItemsDict items) (env.readExcel fp) []).1).1.map
              Record.id).countP (fun s => s == g) ≤ 1 := by
          rw [hl1]
          rw [List.countP_map]
          simpa [Function.comp] using hcount g
        rw [List.countP_map] at hmapcount
        simpa [Function.comp] using hmapcount
      · intro g hg hnone
        constructor
        · exact buildItemMap_warn (buildAllItemsDict items) (env.readExcel fp) [] g hg hnone
        · intro r hr hid
          have hmem : g ∈ ((runLoop env (String.mk (rstripChar '/' url.data)) projectId 1
              (buildItemMap (buildAllItemsDict items) (env.readExcel fp) []).1).1.map
                Record.id) := by
            exact List.mem_map.mpr ⟨r, by simpa using hr, hid⟩
          rw [hl1] at hmem
          rcases List.mem_map.mp hmem with ⟨p, hp, hsnd⟩
          have := hinv p hp
          rw [hsnd] at this
          rw [hnone] at this
          exact Option.noConfusion this

set_option maxRecDepth 8192 in
/-- Witness for C4 on the concrete run: `G1` yields one row, the requested
`MISSING` identifier is warned about and yields none. -/
theorem C4_requested_ids_witness :
    (∀ g ∈ envW.readExcel "f.xlsx", resW.records.countP (fun r => r.id == g) ≤ 1) ∧
    (∀ g ∈ envW.readExcel "f.xlsx", dlookup g [("G1", (5 : Nat))] = none →
      g ∈ resW.warnings ∧ ∀ r ∈ resW.records, r.id ≠ g) :=
  C4_requested_ids 1 envW "https://x" 3 22 "f.xlsx" "basic" [("G1", 5)] resW rfl rfl

/-- C5: an empty fetched description, a description with no img tag, a first
img tag without a src attribute, or a src that does not match the
`attachment/(digits)` pattern each make the item Skipped with only the item
fetch issued: no download, upload, or item update request and no file
write. -/
theorem C5_skip_guards (env : Env) (cleanUrl : String) (projectId e apiId : Nat) (gid : String)
    (h : env.fetchDescription apiId = .ok "" ∨
      ∃ html, env.fetchDescription apiId = .ok html ∧ html ≠ "" ∧
        (env.soupFindImgSrc html = none ∨ env.soupFindImgSrc html = some none ∨
          ∃ src, env.soupFindImgSrc html = some (some src) ∧
            extractAttachmentId src = none)) :
    (processItem env cleanUrl projectId e apiId gid).record.status = "Skipped" ∧
    (processItem env cleanUrl projectId e apiId gid).events = [Event.getItem apiId] ∧
    (processItem env cleanUrl projectId e apiId gid).enum = e := by
  rcases h with h1 | ⟨html, h1, h2, h3 | h3 | ⟨src, h3, h4⟩⟩
  · simp [processItem, h1, skipRec]
  · simp [processItem, h1, h2, h3, skipRec]
  · simp [processItem, h1, h2, h3, skipRec]
  · simp [processItem, h1, h2, h3, h4, skipRec]

/-- Witness for C5: the item with the empty description is Skipped after
only its fetch. -/
theorem C5_skip_guards_witness :
    (processItem envW "https://x" 3 1 6 "G6").record.status = "Skipped" ∧
    (processItem envW "https://x" 3 1 6 "G6").events = [Event.getItem 6] ∧
    (processItem envW "https://x" 3 1 6 "G6").enum = 1 :=
  C5_skip_guards envW "https://x" 3 1 6 "G6" (Or.inl rfl)

/-- C6: when the primary attachment download fails with HTTP 404 the direct
URL fallback request is issued before the item can end Skipped, while a
download failure with any other HTTP status issues no fallback request and
ends in the per-item Skipped handling. -/
theorem C6_download_fallback (env : Env) (cleanUrl : String) (projectId e apiId : Nat)
    (gid html src aid : String)
    (h1 : env.fetchDescription apiId = .ok html) (h2 : html ≠ "")
    (h3 : env.soupFindImgSrc html = some (some src))
    (h4 : extractAttachmentId src = some aid) :
    (env.apiDownload aid = .error (.http 404) →
      Event.directFileDownload (directUrlOf cleanUrl src) ∈
        (processItem env cleanUrl projectId e apiId gid).events) ∧
    (∀ code : Nat, code ≠ 404 → env.apiDownload aid = .error (.http code) →
      (∀ u : String, Event.directFileDownload u ∉
        (processItem env cleanUrl projectId e apiId gid).events) ∧
      (processItem env cleanUrl projectId e apiId gid).record.status = "Skipped") := by
  constructor
  · intro h5
    cases hdd : env.directDownload (directUrlOf cleanUrl src) with
    | ok resp =>
      simp only [processItem, h1, h3, h4, downloadPhase, h5, hdd, if_neg h2,
        eq_self_iff_true, if_true]
      apply afterDownload_events_mono
      simp
    | error e2 =>
      simp only [processItem, h1, h3, h4, downloadPhase, h5, hdd, if_neg h2,
        eq_self_iff_true, if_true]
      simp
  · intro code hcode h5
    simp only [processItem, h1, h3, h4, downloadPhase, h5, if_neg h2, if_neg hcode]
    constructor
    · intro u
      simp
    · simp [skipRec]

/-- Witness for C6: item 7 (attachment 88, primary download 404) issues the
fallback request; item 8 (attachment 99, primary download 500) issues no
fallback and is Skipped. -/
theorem C6_download_fallback_witness :
    Event.directFileDownload (directUrlOf "https://x" src404W) ∈
      (processItem envW "https://x" 3 1 7 "G7").events ∧
    (∀ u : String, Event.directFileDownload u ∉
      (processItem envW "https://x" 3 1 8 "G8").events) ∧
    (processItem envW "https://x" 3 1 8 "G8").record.status = "Skipped" := by
  have h7 := C6_download_fallback envW "https://x" 3 1 7 "G7" html404W src404W "88"
    rfl (by decide) rfl rfl
  have h8 := C6_download_fallback envW "https://x" 3 1 8 "G8" html500W src500W "99"
    rfl (by decide) rfl rfl
  exact ⟨h7.1 rfl, (h8.2 500 (by decide) rfl).1, (h8.2 500 (by decide) rfl).2⟩

/-- C7: the item resolver pages through the listing with page size 50,
advancing the offset by 50, stopping exactly at the first page with fewer
than 50 rows; given that page `k` is the first short page and the fuel
covers it, the fetched items are precisely pages 0..k and the dictionary
built from them covers the global identifier of every fetched item. -/
theorem C7_pagination (env : Env) (k fuel : Nat)
    (hfull : ∀ j, j < k → ¬ (env.listingPage (50 * j)).length < 50)
    (hshort : (env.listingPage (50 * k)).length < 50)
    (hfuel : k < fuel) :
    fetchPages env fuel 0 = some (pagesUpTo env 0 k) ∧
    ∀ it ∈ pagesUpTo env 0 k,
      dlookup it.globalId (buildAllItemsDict (pagesUpTo env 0 k)) ≠ none := by
  constructor
  · apply fetchPages_spec env k fuel 0 hfuel
    · intro j hj
      simpa using hfull j hj
    · simpa using hshort
  · intro it hit
    exact buildAllItemsDict_covers _ it hit

/-- Witness for C7: the one-page project is fetched whole and its single
item is covered by the dictionary. -/
theorem C7_pagination_witness :
    fetchPages envW 1 0 = some (pagesUpTo envW 0 0) ∧
    ∀ it ∈ pagesUpTo envW 0 0,
      dlookup it.globalId (buildAllItemsDict (pagesUpTo envW 0 0)) ≠ none :=
  C7_pagination envW 0 1 (fun j hj => absurd hj (Nat.not_lt_zero j)) (by decide) (by decide)

theorem afterDownload_staging (env : Env) (cleanUrl : String) (projectId e apiId : Nat)
    (gid html src : String) (evs : List Event) (fn : String) (content : List Nat)
    (hw : ∀ p c, Event.writeFile p c ∈ evs → p = "DOWNLOADED/" ++ fn)
    (hr : ∀ p, Event.removeFile p ∉ evs) :
    ((afterDownload env cleanUrl projectId e apiId gid html src evs fn content).record.status =
        "Updated" →
      Event.removeFile ("DOWNLOADED/" ++ fn) ∈
        (afterDownload env cleanUrl projectId e apiId gid html src evs fn content).events) ∧
    ((afterDownload env cleanUrl projectId e apiId gid html src evs fn content).record.status =
        "Skipped" →
      ∀ p, Event.removeFile p ∉
        (afterDownload env cleanUrl projectId e apiId gid html src evs fn content).events) ∧
    (∀ p c, Event.writeFile p c ∈
        (afterDownload env cleanUrl projectId e apiId gid html src evs fn content).events →
      p = "DOWNLOADED/" ++ fn) ∧
    (∀ p, Event.removeFile p ∈
        (afterDownload env cleanUrl projectId e apiId gid html src evs fn content).events →
      p = "DOWNLOADED/" ++ fn) := by
  unfold afterDownload
  cases hca : env.createAttachment (newFilenameOf fn e) with
  | error err =>
    simp only [hca]
    refine ⟨?_, ?_, ?_, ?_⟩
    · intro hst
      exact absurd hst (by simp [skipRec])
    · intro _ p hmem
      simp at hmem
      exact hr p hmem
    · intro p c hmem
      simp at hmem
      exact hw p c hmem
    · intro p hmem
      simp at hmem
      exact absurd hmem (hr p)
  | ok newId =>
    cases hup : env.uploadContent newId content with
    | error err =>
      simp only [hca, hup]
      refine ⟨?_, ?_, ?_, ?_⟩
      · intro hst
        exact absurd hst (by simp [skipRec])
      · intro _ p hmem
        simp at hmem
        exact hr p hmem
      · intro p c hmem
        simp at hmem
        exact hw p c hmem
      · intro p hmem
        simp at hmem
        exact absurd hmem (hr p)
    | ok u =>
      cases hpi : env.putItem apiId
          (replaceAllStr src (newAttachmentUrlOf cleanUrl newId (newFilenameOf fn e)) html) with
      | error err =>
        simp only [hca, hup, hpi]
        refine ⟨?_, ?_, ?_, ?_⟩
        · intro hst
          exact absurd hst (by simp [skipRec])
        · intro _ p hmem
          simp at hmem
          exact hr p hmem
        · intro p c hmem
          simp at hmem
          exact hw p c hmem
        · intro p hmem
          simp at hmem
          exact absurd hmem (hr p)
      | ok v =>
        simp only [hca, hup, hpi]
        refine ⟨?_, ?_, ?_, ?_⟩
        · intro _
          simp
        · intro hst
          exact absurd hst (by simp [updRec])
        · intro p c hmem
          simp at hmem
          exact hw p c hmem
        · intro p hmem
          simp at hmem
          rcases hmem with hm | hm
          · exact absurd hm (hr p)
          · exact hm

/-- C8: once an item's attachment has been staged, the staged file is
removed exactly when the item ends Updated; a Skipped outcome leaves the
staged file on disk; and processing the item writes and removes no path
other than its own staged file. -/
theorem C8_staged_file (env : Env) (cleanUrl : String) (projectId e apiId : Nat)
    (gid html src aid : String) (evs : List Event) (fn : String) (content : List Nat)
    (h1 : env.fetchDescription apiId = .ok html) (h2 : html ≠ "")
    (h3 : env.soupFindImgSrc html = some (some src))
    (h4 : extractAttachmentId src = some aid)
    (hdp : downloadPhase env cleanUrl aid src = (evs, .ok (fn, content))) :
    ((processItem env cleanUrl projectId e apiId gid).record.status = "Updated" →
      Event.removeFile ("DOWNLOADED/" ++ fn) ∈
        (processItem env cleanUrl projectId e apiId gid).events) ∧
    ((processItem env cleanUrl projectId e apiId gid).record.status = "Skipped" →
      ∀ p, Event.removeFile p ∉ (processItem env cleanUrl projectId e apiId gid).events) ∧
    (∀ p c, Event.writeFile p c ∈ (processItem env cleanUrl projectId e apiId gid).events →
      p = "DOWNLOADED/" ++ fn) ∧
    (∀ p, Event.removeFile p ∈ (processItem env cleanUrl projectId e apiId gid).events →
      p = "DOWNLOADED/" ++ fn) := by
  obtain ⟨hw, hr⟩ := downloadPhase_ok_spec env cleanUrl aid src evs fn content hdp
  have hw0 : ∀ p c, Event.writeFile p c ∈ (Event.getItem apiId :: evs) →
      p = "DOWNLOADED/" ++ fn := by
    intro p c hm
    rcases List.mem_cons.mp hm with hm2 | hm2
    · exact Event.noConfusion hm2
    · exact hw p c hm2
  have hr0 : ∀ p, Event.removeFile p ∉ (Event.getItem apiId :: evs) := by
    intro p hm
    rcases List.mem_cons.mp hm with hm2 | hm2
    · exact Event.noConfusion hm2
    · exact hr p hm2
  simp only [processItem, h1, h3, h4, hdp, if_neg h2]
  exact afterDownload_staging env cleanUrl projectId e apiId gid html src
    (Event.getItem apiId :: evs) fn content hw0 hr0

set_option maxRecDepth 16384 in
/-- Witness for C8: the fully successful item removes exactly its staged
file and wrote no other path. -/
theorem C8_staged_file_witness :
    Event.removeFile ("DOWNLOADED/" ++ "pic.png") ∈
      (processItem envW "https://x" 3 1 5 "G1").events ∧
    ∀ p c, Event.writeFile p c ∈ (processItem envW "https://x" 3 1 5 "G1").events →
      p = "DOWNLOADED/" ++ "pic.png" := by
  have h := C8_staged_file envW "https://x" 3 1 5 "G1" htmlW srcW "77"
    [Event.apiFileDownload "77", Event.writeFile "DOWNLOADED/pic.png" [1, 2, 3]]
    "pic.png" [1, 2, 3] rfl (by decide) rfl rfl rfl
  exact ⟨h.1 (by decide), h.2.2.1⟩

/-- C9: `update_jama_attachments` never reads its `attachment_ID`
parameter, so two runs differing only in that argument issue the same
requests, produce the same rows and write the same report. -/
theorem C9_attachment_id_unused (fuel : Nat) (env : Env) (url : String)
    (projectId a1 a2 : Nat) (fp bo : String) :
    update_jama_attachments fuel env url projectId a1 fp bo =
      update_jama_attachments fuel env url projectId a2 fp bo := rfl

/-- C10: when no requested identifier resolves, the run stops before the
loop: no row, no per-item request, and no report document at all. -/
theorem C10_empty_map_early_exit (fuel : Nat) (env : Env) (url : String)
    (projectId attId : Nat) (fp bo : String) (res : RunResult)
    (h1 : itemMapOf env fuel fp = some [])
    (h2 : update_jama_attachments fuel env url projectId attId fp bo = some res) :
    res.report = none ∧ res.records = [] ∧ res.events = [] ∧ res.earlyExit = true := by
  unfold itemMapOf allItemsDictOf at h1
  unfold update_jama_attachments at h2
  cases hfp : fetchPages env fuel 0 with
  | none =>
    rw [hfp] at h1
    simp at h1
  | some items =>
    rw [hfp] at h1 h2
    simp only [Option.map_some', Option.some.injEq] at h1
    simp only [] at h2
    rw [if_pos h1] at h2
    simp only [Option.some.injEq] at h2
    rw [← h2]
    exact ⟨rfl, rfl, rfl, rfl⟩

/-- Witness for C10: a run whose one requested identifier is absent exits
early with no rows, no per-item events and no report. -/
theorem C10_empty_map_early_exit_witness :
    (⟨[], 1, [], ["NOPE"], none, true⟩ : RunResult).report = none ∧
    (⟨[], 1, [], ["NOPE"], none, true⟩ : RunResult).records = [] ∧
    (⟨[], 1, [], ["NOPE"], none, true⟩ : RunResult).events = [] ∧
    (⟨[], 1, [], ["NOPE"], none, true⟩ : RunResult).earlyExit = true :=
  C10_empty_map_early_exit 1 envW10 "https://y" 3 22 "f.xlsx" "basic"
    ⟨[], 1, [], ["NOPE"], none, true⟩ rfl rfl
